import Mathlib

set_option autoImplicit false

namespace Mdrip

/-- Token kinds of the lexer, mirroring the item kinds used by the
repository's lexer test file (src/unnamed/part_000): block label,
code block, end of input, and error. -/
inductive itemType where
  | itemBlockLabel
  | itemCodeBlock
  | itemEOF
  | itemError
deriving DecidableEq

/-- Token record as used by the repository's lexer tests: a kind and a
string payload. -/
structure item where
  typ : itemType
  val : String
deriving DecidableEq

/-- The backtick character, written via its code point. -/
def backquote : Char := Char.ofNat 96

/-- Modelled from the spec: the lexer source file is missing from src/
(only its test file src/unnamed/part_000 is present). The lexer is a
character-at-a-time state machine. Mode text is the scanning state,
carrying the comment-opener match progress cmt (how many characters of
the four-character comment opener have just been matched) and, while the
current line so far consists only of backticks, their count lineTicks
(none once the line holds any other character, so fences are recognized
only at line starts, per the spec); inComment scans an annotation
comment, counting the dashes immediately seen so that a greater-sign
after two dashes closes the comment; inLabel accumulates the characters
of one at-sign label; fenceTag skips the language tag after a fence
opener up to the end of that line; fenceBody captures a code block
verbatim, counting immediately consecutive backticks so that the third
one closes the block, which per the repository's lexer tests may happen
anywhere, not only on a line of its own. -/
inductive LexMode where
  | text (lineTicks : Option Nat) (cmt : Nat)
  | inComment (dash : Nat)
  | inLabel (acc : List Char)
  | fenceTag
  | fenceBody (acc : List Char) (ticks : Nat)
deriving DecidableEq

/-- Modelled from the spec: progress of matching the four-character
annotation comment opener, one character at a time. On a mismatch the
match restarts, possibly at a fresh opening angle bracket. -/
def cmtNext (cmt : Nat) (c : Char) : Nat :=
  if cmt = 0 then (if c = '<' then 1 else 0)
  else if cmt = 1 then (if c = '!' then 2 else if c = '<' then 1 else 0)
  else (if c = '-' then cmt + 1 else if c = '<' then 1 else 0)

/-- Modelled from the spec: a label character is alphanumeric or an
underscore, per the identifier wording of the spec and the labels
exercised by the repository's lexer tests. -/
def isLabelChar (c : Char) : Bool := c.isAlphanum || c = '_'

/-- Modelled from the spec: one step of scanning inside an annotation
comment (after its opener, outside a label). Two dashes followed
immediately by a greater-sign close the comment and scanning resumes
mid-line; an at-sign starts a label; anything else is ignored. -/
def commentStep (dash : Nat) (c : Char) : LexMode :=
  if c = '-' then LexMode.inComment (dash + 1)
  else if 2 ≤ dash ∧ c = '>' then LexMode.text none 0
  else if c = '@' then LexMode.inLabel []
  else LexMode.inComment 0

/-- Modelled from the spec: the mode transition of the lexer for one
input character. -/
def lexStepMode : LexMode → Char → LexMode
  | LexMode.text lt cmt, c =>
    if c = '\n' then LexMode.text (some 0) 0
    else if cmtNext cmt c = 4 then LexMode.inComment 0
    else
      match lt with
      | some k =>
        if c = backquote then
          (if k = 2 then LexMode.fenceTag else LexMode.text (some (k + 1)) (cmtNext cmt c))
        else LexMode.text none (cmtNext cmt c)
      | none => LexMode.text none (cmtNext cmt c)
  | LexMode.inComment dash, c => commentStep dash c
  | LexMode.inLabel acc, c =>
    if isLabelChar c then LexMode.inLabel (c :: acc) else commentStep 0 c
  | LexMode.fenceTag, c =>
    if c = '\n' then LexMode.fenceBody [] 0 else LexMode.fenceTag
  | LexMode.fenceBody acc t, c =>
    if c = backquote then
      (if t = 2 then LexMode.text none 0 else LexMode.fenceBody acc (t + 1))
    else LexMode.fenceBody (c :: List.replicate t backquote ++ acc) 0

/-- Modelled from the spec: the token, if any, emitted by the lexer for
one input character. A non-label character ends a pending label and
emits a BlockLabel token if the label is non-empty; the third
consecutive backtick inside a fence body emits the CodeBlock token
holding the verbatim text captured so far. -/
def lexStepEmit : LexMode → Char → Option item
  | LexMode.inLabel acc, c =>
    if isLabelChar c then none
    else if acc.isEmpty then none
    else some ⟨itemType.itemBlockLabel, String.mk acc.reverse⟩
  | LexMode.fenceBody acc t, c =>
    if c = backquote then
      (if t = 2 then some ⟨itemType.itemCodeBlock, String.mk acc.reverse⟩ else none)
    else none
  | _, _ => none

/-- Modelled from the spec: the terminal token emitted when the input is
exhausted. In plain scanning mode that is the single EOF token; inside
an unterminated annotation comment or an unterminated fence it is a
single Error token. -/
def lexFinish : LexMode → List item
  | LexMode.text _ _ => [⟨itemType.itemEOF, ""⟩]
  | LexMode.inComment _ => [⟨itemType.itemError, "unterminated comment"⟩]
  | LexMode.inLabel _ => [⟨itemType.itemError, "unterminated comment"⟩]
  | LexMode.fenceTag => [⟨itemType.itemError, "unterminated code block"⟩]
  | LexMode.fenceBody _ _ => [⟨itemType.itemError, "unterminated code block"⟩]

/-- Modelled from the spec: running the lexer from a mode over the
remaining characters, materializing the emitted token stream (the spec
allows a fully materialized token list in place of the pull-based
iteration of the source). -/
def lexList : LexMode → List Char → List item
  | m, [] => lexFinish m
  | m, c :: cs => (lexStepEmit m c).toList ++ lexList (lexStepMode m c) cs

/-- Modelled from the spec: the full token stream of one input document,
scanning from the start of the first line. -/
def lexItems (s : String) : List item :=
  lexList (LexMode.text (some 0) 0) s.data

/-- Tokens emitted while consuming the given characters, without the
terminal token. -/
def lexEmit : LexMode → List Char → List item
  | _, [] => []
  | m, c :: cs => (lexStepEmit m c).toList ++ lexEmit (lexStepMode m c) cs

/-- Mode of the lexer after consuming the given characters. -/
def lexModeAfter (m : LexMode) (cs : List Char) : LexMode :=
  cs.foldl lexStepMode m

/-- Whether a mode is the plain scanning mode, with no partial comment
or fence open. -/
def isTextMode : LexMode → Bool
  | LexMode.text _ _ => true
  | _ => false

/-- Modelled from the spec: one matched unit, the verbatim code text of
one fenced block together with the ordered labels collected immediately
before it. The parser source file is missing from src/; the driver
main.go accesses the fields labels and codeText. -/
structure ScriptBlock where
  labels : List String
  codeText : String
deriving DecidableEq

/-- Modelled from the spec: appending one label to the pending run,
deduplicating within the run per the spec's aggregator algorithm. -/
def addPending (pending : List String) (l : String) : List String :=
  if l ∈ pending then pending else pending ++ [l]

/-- Modelled from the spec: appending one block under one label of the
mapping, creating the entry on first use. The mapping is modelled as an
association list with unique keys in order of first use; the driver
only ever looks entries up by key. -/
def addBlock : List (String × List ScriptBlock) → String → ScriptBlock → List (String × List ScriptBlock)
  | [], l, b => [(l, [b])]
  | (k, s) :: rest, l, b =>
    if k = l then (k, s ++ [b]) :: rest else (k, s) :: addBlock rest l b

/-- Modelled from the spec: the aggregator loop over the token stream.
On a BlockLabel token the label joins the pending run (deduplicated); on
a CodeBlock token a ScriptBlock is built from the pending run and the
text and appended under every pending label, and the run is cleared; on
EOF the mapping is returned. On Error the parse is aborted: since the
call in main.go line 130 shows Parse returns a single mapping value and
the spec says no partial mapping is returned on a lexer error, the model
returns the empty mapping, discarding everything. -/
def parseLoop : List String → List (String × List ScriptBlock) → List item → List (String × List ScriptBlock)
  | _, m, [] => m
  | pending, m, it :: rest =>
    match it.typ with
    | itemType.itemEOF => m
    | itemType.itemError => []
    | itemType.itemBlockLabel => parseLoop (addPending pending it.val) m rest
    | itemType.itemCodeBlock =>
      parseLoop [] (pending.foldl (fun acc k => addBlock acc k ⟨pending, it.val⟩) m) rest

/-- Modelled from the spec: Parse lexes the whole input and aggregates
the token stream into the label-to-script mapping. The Parse source is
missing from src/; its call site main.go line 130 fixes its shape as a
single returned mapping. -/
def Parse (s : String) : List (String × List ScriptBlock) :=
  parseLoop [] [] (lexItems s)

/-- Script stored under a label in the mapping, empty when the label is
absent. -/
def scriptFor : List (String × List ScriptBlock) → String → List ScriptBlock
  | [], _ => []
  | (k, s) :: rest, l => if k = l then s else scriptFor rest l

/-- Lookup of a label in the mapping, mirroring the comma-ok map lookup
in main.go line 131. -/
def lookupScript : List (String × List ScriptBlock) → String → Option (List ScriptBlock)
  | [], _ => none
  | (k, s) :: rest, l => if k = l then some s else lookupScript rest l

/-- Blocks built while walking a token stream, in stream order, with the
pending label run threaded through exactly as the aggregator does. -/
def collectBlocks : List String → List item → List ScriptBlock
  | _, [] => []
  | pending, it :: rest =>
    match it.typ with
    | itemType.itemEOF => []
    | itemType.itemError => []
    | itemType.itemBlockLabel => collectBlocks (addPending pending it.val) rest
    | itemType.itemCodeBlock => ⟨pending, it.val⟩ :: collectBlocks [] rest

/-- Whether a token stream contains an Error token. -/
def hasLexError (items : List item) : Bool :=
  items.any (fun it => it.typ = itemType.itemError)

/-- Blocks of a document in document order, empty when the stream ends
in an Error token, matching the mapping the aggregator returns. -/
def docBlocks (items : List item) : List ScriptBlock :=
  if hasLexError items then [] else collectBlocks [] items

/-- Bucket pairing a file name with the script extracted from it for the
requested label, as built in main.go line 136. -/
structure ScriptBucket where
  fileName : String
  script : List ScriptBlock
deriving DecidableEq

/-- Extraction loop of main (main.go lines 122 to 137): for each file in
order, a failed read exits with code 2, a missing label exits with code
3, and otherwise the bucket is collected; emission happens only after
every file was parsed and checked. A file is modelled as its name with
an optional contents string, none meaning the read failed. -/
def runMain (label : String) : List (String × Option String) → Except Nat (List ScriptBucket)
  | [] => Except.ok []
  | (_, none) :: _ => Except.error 2
  | (fn, some contents) :: rest =>
    match lookupScript (Parse contents) label with
    | none => Except.error 3
    | some script =>
      match runMain label rest with
      | Except.error n => Except.error n
      | Except.ok buckets => Except.ok (⟨fn, script⟩ :: buckets)

/-- The single-quote character, written via its code point. -/
def squote : String := String.singleton (Char.ofNat 39)

/-- Delimiter line of dumpBucket (main.go line 14): a hash, seventy
dashes, a hash, two spaces, a word and a one-based index. -/
def delimLine (s : String) (i : Nat) : String :=
  ("#") ++ String.mk (List.replicate 70 '-') ++ ("#  ") ++ s ++ (" ") ++ (toString i) ++ ("\n")

/-- One block of dumpBucket's output (main.go lines 16 to 21): start
delimiter, an echo line naming the first label of the block, the
verbatim code text, end delimiter and a blank line. Accessing the first
label of a block with no labels is the out-of-bounds access of main.go
line 18, modelled as none. -/
def dumpBlock (label fileName : String) (n i : Nat) (b : ScriptBlock) : Option String :=
  match b.labels.head? with
  | none => none
  | some l0 =>
    some ((delimLine ("Start") i) ++ ("echo \"Block ") ++ squote ++ l0 ++ squote
      ++ (" (") ++ (toString i) ++ ("/") ++ (toString n) ++ (" in ") ++ label
      ++ (") of ") ++ fileName ++ ("\"\n####\n") ++ b.codeText
      ++ (delimLine ("End") i) ++ ("\n"))

/-- All blocks of a bucket dumped in order with one-based indices, none
as soon as any block triggers the out-of-bounds label access. -/
def dumpBlocks (label fileName : String) (n : Nat) : Nat → List ScriptBlock → Option String
  | _, [] => some ("")
  | i, b :: rest =>
    match dumpBlock label fileName n i b, dumpBlocks label fileName n (i + 1) rest with
    | some s, some t => some (s ++ t)
    | _, _ => none

/-- Output of dumpBucket (main.go lines 12 to 23): a header naming the
label and file, then every block of the bucket's script. -/
def dumpBucket (label : String) (bucket : ScriptBucket) : Option String :=
  (dumpBlocks label bucket.fileName bucket.script.length 1 bucket.script).map
    (fun body => ("#\n# Script @") ++ label ++ (" from ") ++ bucket.fileName ++ (" \n#\n") ++ body)

/-- Output of emitStraightScript (main.go lines 25 to 30): every bucket
dumped in order, then a final echo line. -/
def emitStraightScript (label : String) : List ScriptBucket → Option String
  | [] => some ("echo \"All done.  No errors.\"\n")
  | bk :: rest =>
    match dumpBucket label bk, emitStraightScript label rest with
    | some s, some t => some (s ++ t)
    | _, _ => none

/-- Script text written to stdout by one invocation: nothing when the
extraction loop failed, otherwise the straight emission. -/
def mainOutput (label : String) (files : List (String × Option String)) : String :=
  match runMain label files with
  | Except.error _ => ""
  | Except.ok buckets => (emitStraightScript label buckets).getD ""

/-- First code block of the repository's lexer tests. -/
def block1 : String := "echo $PATH\necho $GOPATH"

/-- Second code block of the repository's lexer tests. -/
def block2 : String := "kill -9 $pid"

/-- The worked example document from the usage text of main.go lines 69
to 92, with real fences in place of the quoted ones of the usage text. -/
def workedExample : String :=
  ("Blah blah blah.\n<!-- @goHome @foo -->\n```\ncd $HOME\n```\nBlah blah blah.\n<!-- @echoApple @apple -->\n```\necho \"an apple a day keeps the doctor away\"\n```\nBlah blah blah.\n<!-- @echoCloseStar @foo @baz -->\n```\necho \"Proxima Centauri\"\n```\nBlah blah blah.\n")

/-- Input of the repository's lexer test named block1: the annotation
comment sits mid-line and the closing fence follows the last code
character with no newline before it. -/
def exMidline : String := ("aa <!-- @1 -->\n```\necho $PATH\necho $GOPATH```\n bbb")

/-- A document with one complete labeled block followed by a fence that
is opened and never closed. -/
def exUnterminated : String := ("<!-- @a -->\n```\nx\n```\n```\nboom")

/-- Lines of a character list, splitting at newline characters. -/
def splitLines : List Char → List (List Char)
  | [] => [[]]
  | c :: cs =>
    if c = '\n' then [] :: splitLines cs
    else
      match splitLines cs with
      | [] => [[c]]
      | l :: ls => (c :: l) :: ls

theorem lexStepEmit_some (m : LexMode) (c : Char) (it : item) (h : lexStepEmit m c = some it) :
    it.typ = itemType.itemBlockLabel ∨ it.typ = itemType.itemCodeBlock := by
  cases m with
  | text lt cmt => simp [lexStepEmit] at h
  | inComment d => simp [lexStepEmit] at h
  | fenceTag => simp [lexStepEmit] at h
  | inLabel acc =>
    simp only [lexStepEmit] at h
    split at h
    · exact absurd h (by simp)
    · split at h
      · exact absurd h (by simp)
      · cases h
        exact Or.inl rfl
  | fenceBody acc t =>
    simp only [lexStepEmit] at h
    split at h
    · split at h
      · cases h
        exact Or.inr rfl
      · exact absurd h (by simp)
    · exact absurd h (by simp)

theorem lexEmit_mem (cs : List Char) : ∀ (m : LexMode) (it : item), it ∈ lexEmit m cs →
    it.typ = itemType.itemBlockLabel ∨ it.typ = itemType.itemCodeBlock := by
  induction cs with
  | nil => intro m it h; simp [lexEmit] at h
  | cons c cs ih =>
    intro m it h
    simp only [lexEmit, List.mem_append] at h
    rcases h with h | h
    · cases ho : lexStepEmit m c with
      | none => rw [ho] at h; simp [Option.toList] at h
      | some x =>
        rw [ho] at h
        simp [Option.toList] at h
        subst h
        exact lexStepEmit_some m c _ ho
    · exact ih _ _ h

theorem lexList_eq (cs : List Char) : ∀ m, lexList m cs = lexEmit m cs ++ lexFinish (lexModeAfter m cs) := by
  induction cs with
  | nil => intro m; rfl
  | cons c cs ih =>
    intro m
    simp only [lexList, lexEmit, lexModeAfter, List.foldl_cons, List.append_assoc]
    rw [ih]
    rfl

theorem lexFinish_terminal (m : LexMode) : ∃ t, lexFinish m = [t] ∧
    (t.typ = itemType.itemEOF ∨ t.typ = itemType.itemError) ∧
    (t.typ = itemType.itemEOF ↔ isTextMode m = true) := by
  cases m <;> refine ⟨_, rfl, ?_, ?_⟩ <;> simp [isTextMode, lexFinish]

theorem lexItems_structure (s : String) : ∃ pre t,
    lexItems s = pre ++ [t] ∧
    (∀ it ∈ pre, it.typ = itemType.itemBlockLabel ∨ it.typ = itemType.itemCodeBlock) ∧
    (t.typ = itemType.itemEOF ∨ t.typ = itemType.itemError) ∧
    (t.typ = itemType.itemEOF ↔ isTextMode (lexModeAfter (LexMode.text (some 0) 0) s.data) = true) := by
  obtain ⟨t, ht, hterm, hiff⟩ := lexFinish_terminal (lexModeAfter (LexMode.text (some 0) 0) s.data)
  refine ⟨lexEmit (LexMode.text (some 0) 0) s.data, t, ?_, ?_, hterm, hiff⟩
  · rw [lexItems, lexList_eq, ht]
  · intro it hit
    exact lexEmit_mem _ _ _ hit

/-- C8: for every input, the token stream of the lexer ends in exactly one
terminal token, EOF when the input is exhausted with no partial comment or
fence open (scanning mode) and Error otherwise, and every token before the
terminal one is a BlockLabel or CodeBlock token; in particular EOF is
emitted exactly once and nothing follows the terminal token. -/
theorem lex_terminal_token (s : String) : ∃ pre t,
    lexItems s = pre ++ [t] ∧
    (∀ it ∈ pre, it.typ = itemType.itemBlockLabel ∨ it.typ = itemType.itemCodeBlock) ∧
    (t.typ = itemType.itemEOF ∨ t.typ = itemType.itemError) ∧
    (t.typ = itemType.itemEOF ↔ isTextMode (lexModeAfter (LexMode.text (some 0) 0) s.data) = true) :=
  lexItems_structure s

theorem lexList_prose (cs : List Char) : ∀ (lt : Option Nat),
    (∀ c ∈ cs, c ≠ '<' ∧ c ≠ backquote) →
    lexList (LexMode.text lt 0) cs = [⟨itemType.itemEOF, ""⟩] := by
  induction cs with
  | nil => intro lt _; rfl
  | cons c cs ih =>
    intro lt h
    have hc := h c (List.mem_cons_self c cs)
    have hrest : ∀ x ∈ cs, x ≠ '<' ∧ x ≠ backquote :=
      fun x hx => h x (List.mem_cons_of_mem c hx)
    have hemit : lexStepEmit (LexMode.text lt 0) c = none := rfl
    by_cases hn : c = '\n'
    · have hmode : lexStepMode (LexMode.text lt 0) c = LexMode.text (some 0) 0 := by
        simp [lexStepMode, hn]
      simp only [lexList, hmode, hemit, Option.toList, List.nil_append]
      exact ih _ hrest
    · have hcm : cmtNext 0 c = 0 := by simp [cmtNext, hc.1]
      have hmode : lexStepMode (LexMode.text lt 0) c = LexMode.text none 0 := by
        cases lt <;> simp [lexStepMode, hn, hcm, hc.2]
      simp only [lexList, hmode, hemit, Option.toList, List.nil_append]
      exact ih _ hrest

/-- C7: the empty document, a whitespace-only document, and a prose-only
document (formalized: one containing neither the character that can start
an annotation comment opener nor a backtick) make the lexer emit a bare
EOF token stream with no BlockLabel, CodeBlock, or Error token, and Parse
returns the mapping with zero label keys. -/
theorem lex_prose_only_eof (s : String) (h : ∀ c ∈ s.data, c ≠ '<' ∧ c ≠ backquote) :
    lexItems s = [⟨itemType.itemEOF, ""⟩] ∧ Parse s = [] := by
  have h1 : lexItems s = [⟨itemType.itemEOF, ""⟩] := lexList_prose s.data _ h
  refine ⟨h1, ?_⟩
  rw [Parse, h1]
  rfl

/-- Witness for C7 at the prose-only input of the repository's lexer
tests; the empty and whitespace-only inputs are covered by the repository
test theorem below. -/
theorem lex_prose_only_eof_witness :
    (∀ c ∈ ("blah blah blinkity blah").data, c ≠ '<' ∧ c ≠ backquote) ∧
    (lexItems ("blah blah blinkity blah") = [⟨itemType.itemEOF, ""⟩] ∧
      Parse ("blah blah blinkity blah") = []) :=
  ⟨by decide, lex_prose_only_eof ("blah blah blinkity blah") (by decide)⟩

theorem cmtNext_backquote (cmt : Nat) : cmtNext cmt backquote = 0 := by
  have h1 : ¬ (backquote = '<') := by decide
  have h2 : ¬ (backquote = '!') := by decide
  have h3 : ¬ (backquote = '-') := by decide
  simp [cmtNext, h1, h2, h3]

theorem lexList_fenceBody (body : List Char) : ∀ (acc : List Char) (rest : List Char),
    (∀ c ∈ body, c ≠ backquote) →
    lexList (LexMode.fenceBody acc 0) (body ++ backquote :: backquote :: backquote :: rest) =
      ⟨itemType.itemCodeBlock, String.mk (acc.reverse ++ body)⟩ :: lexList (LexMode.text none 0) rest := by
  induction body with
  | nil =>
    intro acc rest _
    simp [lexList, lexStepMode, lexStepEmit]
  | cons c body ih =>
    intro acc rest h
    have hc : c ≠ backquote := h c (List.mem_cons_self c body)
    have hmode : lexStepMode (LexMode.fenceBody acc 0) c = LexMode.fenceBody (c :: acc) 0 := by
      simp [lexStepMode, hc]
    have hemit : lexStepEmit (LexMode.fenceBody acc 0) c = none := by
      simp [lexStepEmit, hc]
    simp only [List.cons_append, lexList, hmode, hemit, Option.toList, List.nil_append,
      List.append_eq]
    rw [ih (c :: acc) rest (fun x hx => h x (List.mem_cons_of_mem c hx))]
    simp [List.reverse_cons, List.append_assoc]

theorem lexList_fenceTag (tag : List Char) : ∀ rest : List Char, (∀ c ∈ tag, c ≠ '\n') →
    lexList LexMode.fenceTag (tag ++ '\n' :: rest) = lexList (LexMode.fenceBody [] 0) rest := by
  induction tag with
  | nil => intro rest _; simp [lexList, lexStepMode, lexStepEmit]
  | cons c tag ih =>
    intro rest h
    have hc : c ≠ '\n' := h c (List.mem_cons_self c tag)
    have hmode : lexStepMode LexMode.fenceTag c = LexMode.fenceTag := by
      simp [lexStepMode, hc]
    have hemit : lexStepEmit LexMode.fenceTag c = none := rfl
    simp only [List.cons_append, lexList, hmode, hemit, Option.toList, List.nil_append]
    exact ih rest (fun x hx => h x (List.mem_cons_of_mem c hx))

theorem lexList_fenceOpen (rest : List Char) (cmt : Nat) :
    lexList (LexMode.text (some 0) cmt) (backquote :: backquote :: backquote :: rest) =
      lexList LexMode.fenceTag rest := by
  have hn : ¬ (backquote = '\n') := by decide
  simp [lexList, lexStepMode, lexStepEmit, hn, cmtNext_backquote]

/-- C3 counterexample: on the input of the repository's lexer test named
block1 the only line consisting of a triple backtick is the opening
fence, the annotation comment opener sits mid-line at the third column,
and still the lexer emits the label, a CodeBlock token whose payload ends
at the triple backtick that directly follows the last code character on
its line, and then EOF with no Error token. Hence delimiters are not
recognized only at line starts and a block is not closed only by a line
consisting of the closing triple backtick. -/
theorem lex_delimiters_counterexample :
    splitLines exMidline.data =
      [("aa <!-- @1 -->").data, ("```").data, ("echo $PATH").data,
       ("echo $GOPATH```").data, (" bbb").data] ∧
    lexItems exMidline =
      [⟨itemType.itemBlockLabel, ("1")⟩,
       ⟨itemType.itemCodeBlock, ("echo $PATH\necho $GOPATH")⟩,
       ⟨itemType.itemEOF, ("")⟩] :=
  ⟨by decide, by decide⟩

/-- C3 amended: fence openers are recognized at line starts (the theorem
starts scanning at a line start, and its third part shows a backtick
reached mid-line is inert prose); the comment opener is recognized
anywhere, also mid-line (second part); a code block is closed at the next
run of three backticks wherever it occurs, and the CodeBlock payload is
the verbatim text after the opening fence line's newline up to that run,
with the fence lines and the language tag excluded (first part, stated
for bodies free of backticks so that the closing run is the first one). -/
theorem lex_fence_capture_amended :
    (∀ (tag body rest : List Char), (∀ c ∈ tag, c ≠ '\n') → (∀ c ∈ body, c ≠ backquote) →
      lexList (LexMode.text (some 0) 0)
          (backquote :: backquote :: backquote ::
            (tag ++ '\n' :: (body ++ backquote :: backquote :: backquote :: rest))) =
        ⟨itemType.itemCodeBlock, String.mk body⟩ :: lexList (LexMode.text none 0) rest) ∧
    (∀ rest : List Char,
      lexList (LexMode.text none 0) ('<' :: '!' :: '-' :: '-' :: rest) =
        lexList (LexMode.inComment 0) rest) ∧
    (∀ (k : Nat) (rest : List Char),
      lexList (LexMode.text none k) (backquote :: rest) =
        lexList (LexMode.text none 0) rest) := by
  refine ⟨?_, ?_, ?_⟩
  · intro tag body rest htag hbody
    rw [lexList_fenceOpen, lexList_fenceTag tag _ htag, lexList_fenceBody body [] rest hbody]
    simp
  · intro rest
    rfl
  · intro k rest
    have hn : ¬ (backquote = '\n') := by decide
    simp [lexList, lexStepMode, lexStepEmit, hn, cmtNext_backquote]

/-- Witness for the amended C3 at a concrete fenced block with an empty
language tag, body x and empty trailing input. -/
theorem lex_fence_capture_amended_witness :
    ((∀ c ∈ ([] : List Char), c ≠ '\n') ∧ (∀ c ∈ [('x' : Char)], c ≠ backquote)) ∧
    lexList (LexMode.text (some 0) 0)
        (backquote :: backquote :: backquote ::
          (([] : List Char) ++ '\n' :: ([('x' : Char)] ++ backquote :: backquote :: backquote :: ([] : List Char)))) =
      ⟨itemType.itemCodeBlock, String.mk [('x' : Char)]⟩ :: lexList (LexMode.text none 0) [] :=
  ⟨⟨by decide, by decide⟩, lex_fence_capture_amended.1 [] [('x' : Char)] [] (by decide) (by decide)⟩

/-- The model reproduces all seven lexer tests of the repository's test
file src/unnamed/part_000, token for token. -/
theorem lex_matches_repo_tests :
    lexItems ("") = [⟨itemType.itemEOF, ("")⟩] ∧
    lexItems (" \t\n") = [⟨itemType.itemEOF, ("")⟩] ∧
    lexItems ("blah blah blinkity blah") = [⟨itemType.itemEOF, ("")⟩] ∧
    lexItems ("<!-- -->") = [⟨itemType.itemEOF, ("")⟩] ∧
    lexItems ("a <!-- --> b") = [⟨itemType.itemEOF, ("")⟩] ∧
    lexItems (("aa <!-- @1 -->\n```\n") ++ block1 ++ ("```\n bbb")) =
      [⟨itemType.itemBlockLabel, ("1")⟩, ⟨itemType.itemCodeBlock, block1⟩,
       ⟨itemType.itemEOF, ("")⟩] ∧
    lexItems (("aa <!-- @1 @2-->\n```\n") ++ block1 ++ ("```\n bb cc\ndd <!-- @3 @4-->\n```\n") ++ block2 ++ ("```\n ee ff\n")) =
      [⟨itemType.itemBlockLabel, ("1")⟩, ⟨itemType.itemBlockLabel, ("2")⟩,
       ⟨itemType.itemCodeBlock, block1⟩, ⟨itemType.itemBlockLabel, ("3")⟩,
       ⟨itemType.itemBlockLabel, ("4")⟩, ⟨itemType.itemCodeBlock, block2⟩,
       ⟨itemType.itemEOF, ("")⟩] :=
  ⟨by decide, by decide, by decide, by decide, by decide, by decide, by decide⟩

/-- C1: on the worked example document of the usage text, the Script for
label foo has exactly two blocks, cd HOME first and the Proxima Centauri
echo second, and the apple block is not among them. -/
theorem parse_worked_example_foo :
    scriptFor (Parse workedExample) ("foo") =
      [⟨[("goHome"), ("foo")], ("cd $HOME\n")⟩,
       ⟨[("echoCloseStar"), ("foo"), ("baz")], ("echo \"Proxima Centauri\"\n")⟩] ∧
    ∀ b ∈ scriptFor (Parse workedExample) ("foo"),
      b.codeText ≠ ("echo \"an apple a day keeps the doctor away\"\n") := by
  have h : scriptFor (Parse workedExample) ("foo") =
      [⟨[("goHome"), ("foo")], ("cd $HOME\n")⟩,
       ⟨[("echoCloseStar"), ("foo"), ("baz")], ("echo \"Proxima Centauri\"\n")⟩] := by decide
  refine ⟨h, ?_⟩
  rw [h]
  decide

theorem mem_addPending (pending : List String) (l : String) : l ∈ addPending pending l := by
  unfold addPending
  split
  · assumption
  · simp

theorem addPending_mem_eq (pending : List String) (l : String) (h : l ∈ pending) :
    addPending pending l = pending := by
  unfold addPending
  rw [if_pos h]

theorem addPending_nodup (pending : List String) (l : String) (h : pending.Nodup) :
    (addPending pending l).Nodup := by
  unfold addPending
  split
  · exact h
  · rename_i hni
    rw [List.nodup_append]
    refine ⟨h, List.nodup_singleton l, ?_⟩
    intro a ha hal
    rw [List.mem_singleton] at hal
    subst hal
    exact hni ha

theorem scriptFor_addBlock (m : List (String × List ScriptBlock)) (k : String) (b : ScriptBlock)
    (l : String) :
    scriptFor (addBlock m k b) l = scriptFor m l ++ (if k = l then [b] else []) := by
  induction m with
  | nil =>
    by_cases h : k = l
    · simp [addBlock, scriptFor, h]
    · simp [addBlock, scriptFor, h]
  | cons p rest ih =>
    obtain ⟨k2, s2⟩ := p
    by_cases h : k2 = k
    · subst h
      simp only [addBlock, if_pos rfl, scriptFor]
      by_cases h2 : k2 = l
      · simp [h2]
      · simp [h2]
    · simp only [addBlock, if_neg h, scriptFor]
      by_cases h2 : k2 = l
      · have hkl : ¬ (k = l) := fun he => h (h2.trans he.symm)
        simp [h2, hkl]
      · simp [h2, ih]

theorem scriptFor_foldl_addBlock (pending : List String) :
    ∀ (m : List (String × List ScriptBlock)) (l : String) (b : ScriptBlock), pending.Nodup →
    scriptFor (pending.foldl (fun acc k => addBlock acc k b) m) l =
      scriptFor m l ++ (if l ∈ pending then [b] else []) := by
  induction pending with
  | nil => intro m l b _; simp
  | cons k rest ih =>
    intro m l b hnd
    rw [List.foldl_cons]
    rw [List.nodup_cons] at hnd
    rw [ih _ _ _ hnd.2, scriptFor_addBlock]
    by_cases hkl : k = l
    · subst hkl
      rw [if_pos rfl, if_neg hnd.1, if_pos (List.mem_cons_self k rest)]
      simp
    · rw [if_neg hkl]
      by_cases hlr : l ∈ rest
      · rw [if_pos hlr, if_pos (List.mem_cons_of_mem k hlr)]
        simp
      · have : ¬ (l ∈ k :: rest) := by
          rw [List.mem_cons]
          rintro (he | he)
          · exact hkl he.symm
          · exact hlr he
        rw [if_neg hlr, if_neg this]
        simp

theorem parseLoop_ok (items : List item) :
    ∀ (pending : List String) (m : List (String × List ScriptBlock)) (l : String),
    pending.Nodup → (∀ it ∈ items, it.typ ≠ itemType.itemError) →
    scriptFor (parseLoop pending m items) l =
      scriptFor m l ++ (collectBlocks pending items).filter (fun b => decide (l ∈ b.labels)) := by
  induction items with
  | nil => intro pending m l _ _; simp [parseLoop, collectBlocks]
  | cons it rest ih =>
    intro pending m l hnd herr
    obtain ⟨ty, v⟩ := it
    have hrest : ∀ x ∈ rest, x.typ ≠ itemType.itemError :=
      fun x hx => herr x (List.mem_cons_of_mem _ hx)
    cases ty with
    | itemEOF => simp [parseLoop, collectBlocks]
    | itemError =>
      exact absurd rfl (herr ⟨itemType.itemError, v⟩ (List.mem_cons_self _ _))
    | itemBlockLabel =>
      show scriptFor (parseLoop (addPending pending v) m rest) l = _
      rw [ih _ _ _ (addPending_nodup _ _ hnd) hrest]
      rfl
    | itemCodeBlock =>
      show scriptFor (parseLoop []
          (pending.foldl (fun acc k => addBlock acc k ⟨pending, v⟩) m) rest) l = _
      rw [ih _ _ _ List.nodup_nil hrest]
      rw [scriptFor_foldl_addBlock _ _ _ _ hnd]
      show _ = scriptFor m l ++
        List.filter (fun b => decide (l ∈ b.labels)) (⟨pending, v⟩ :: collectBlocks [] rest)
      rw [List.filter_cons]
      by_cases hl : l ∈ pending
      · simp [hl, List.append_assoc]
      · simp [hl]

theorem parseLoop_error (pre : List item) :
    ∀ (pending : List String) (m : List (String × List ScriptBlock)) (msg : String)
      (tail : List item),
    (∀ it ∈ pre, it.typ ≠ itemType.itemEOF ∧ it.typ ≠ itemType.itemError) →
    parseLoop pending m (pre ++ ⟨itemType.itemError, msg⟩ :: tail) = [] := by
  induction pre with
  | nil => intro pending m msg tail _; rfl
  | cons it rest ih =>
    intro pending m msg tail h
    obtain ⟨ty, v⟩ := it
    have hrest : ∀ x ∈ rest, x.typ ≠ itemType.itemEOF ∧ x.typ ≠ itemType.itemError :=
      fun x hx => h x (List.mem_cons_of_mem _ hx)
    cases ty with
    | itemEOF => exact absurd rfl (h ⟨itemType.itemEOF, v⟩ (List.mem_cons_self _ _)).1
    | itemError => exact absurd rfl (h ⟨itemType.itemError, v⟩ (List.mem_cons_self _ _)).2
    | itemBlockLabel => exact ih _ _ _ _ hrest
    | itemCodeBlock => exact ih _ _ _ _ hrest

theorem hasLexError_parse (s : String) (h : hasLexError (lexItems s) = true) : Parse s = [] := by
  obtain ⟨pre, t, heq, hpre, hterm, _⟩ := lexItems_structure s
  have hex : ∃ it ∈ lexItems s, it.typ = itemType.itemError := by
    simpa [hasLexError, List.any_eq_true] using h
  obtain ⟨it, hmem, hit⟩ := hex
  rw [heq] at hmem
  rcases List.mem_append.mp hmem with hm | hm
  · rcases hpre it hm with h1 | h1 <;> rw [h1] at hit <;> cases hit
  · rw [List.mem_singleton] at hm
    subst hm
    obtain ⟨tt, tv⟩ := it
    simp only at hit
    subst hit
    rw [Parse, heq]
    exact parseLoop_error pre [] [] tv []
      (fun x hx => by rcases hpre x hx with h1 | h1 <;> rw [h1] <;> exact ⟨by simp, by simp⟩)

theorem scriptFor_parse (s : String) (l : String) :
    scriptFor (Parse s) l = (docBlocks (lexItems s)).filter (fun b => decide (l ∈ b.labels)) := by
  obtain ⟨pre, t, heq, hpre, hterm, _⟩ := lexItems_structure s
  rcases hterm with he | he
  · have herr : ∀ x ∈ lexItems s, x.typ ≠ itemType.itemError := by
      intro x hx
      rw [heq] at hx
      rcases List.mem_append.mp hx with hm | hm
      · rcases hpre x hm with h1 | h1 <;> rw [h1] <;> intro hbad <;> cases hbad
      · rw [List.mem_singleton] at hm
        subst hm
        rw [he]
        intro hbad
        cases hbad
    have hnoerr : hasLexError (lexItems s) = false := by
      rw [hasLexError, List.any_eq_false]
      intro x hx
      simp [herr x hx]
    rw [docBlocks, hnoerr]
    simp only [Bool.false_eq_true, if_false]
    rw [Parse]
    rw [parseLoop_ok _ _ _ _ List.nodup_nil herr]
    simp [scriptFor]
  · have herrT : hasLexError (lexItems s) = true := by
      rw [heq]
      simp only [hasLexError, List.any_eq_true]
      exact ⟨t, by simp, by simp [he]⟩
    rw [hasLexError_parse s herrT]
    simp [docBlocks, herrT, scriptFor]

/-- C5: for every document and label, the Script stored under that label
by Parse is exactly the document-ordered sequence of the document's
blocks filtered to those whose label set contains the label: blocks
appear in the document order of their originating fences (collectBlocks
walks the token stream in order), and each block's label set is the
pending run collected in the order the annotations appeared. -/
theorem parse_order_filter (s : String) (l : String) :
    scriptFor (Parse s) l = (docBlocks (lexItems s)).filter (fun b => decide (l ∈ b.labels)) :=
  scriptFor_parse s l

/-- C2 amended: Parse always returns a single mapping value (per its call
site main.go line 130); whenever the lexer reports an Error token, Parse
aborts and returns the empty mapping, so no completed or partial mapping
is returned, but no error value is propagated to the caller either. -/
theorem parse_error_returns_empty (s : String) (h : hasLexError (lexItems s) = true) :
    Parse s = [] :=
  hasLexError_parse s h

/-- Witness for the amended C2 at a document whose last fence is opened
and never closed. -/
theorem parse_error_returns_empty_witness :
    hasLexError (lexItems exUnterminated) = true ∧ Parse exUnterminated = [] :=
  ⟨by decide, parse_error_returns_empty exUnterminated (by decide)⟩

/-- C2 counterexample: on a document with one complete labeled block
followed by an unterminated fence, the lexer emits the label and the
completed CodeBlock and then reports an Error, yet Parse returns the
plain empty mapping, equal to the mapping of a successful parse of the
empty document. The caller of Parse (main.go line 130) receives a single
ordinary mapping value, so no error is propagated to it as a parse
failure, contrary to the claim. -/
theorem parse_lex_error_counterexample :
    hasLexError (lexItems exUnterminated) = true ∧
    lexEmit (LexMode.text (some 0) 0) exUnterminated.data =
      [⟨itemType.itemBlockLabel, ("a")⟩, ⟨itemType.itemCodeBlock, ("x\n")⟩] ∧
    Parse exUnterminated = Parse ("") ∧ Parse ("") = [] :=
  ⟨by decide, by decide, by decide, by decide⟩

/-- C4: applying the same label twice to one pending run is a no-op: a
duplicated BlockLabel token leaves the aggregator state unchanged (first
part, for every pending run, mapping and continuation of the stream),
and concretely a block annotated with the same label twice yields one
ScriptBlock whose label set holds that label exactly once, appended
exactly once to that label's Script (second part). -/
theorem parse_label_dedup :
    (∀ (x : String) (pending : List String) (m : List (String × List ScriptBlock))
        (rest : List item),
      parseLoop pending m (⟨itemType.itemBlockLabel, x⟩ :: ⟨itemType.itemBlockLabel, x⟩ :: rest) =
        parseLoop pending m (⟨itemType.itemBlockLabel, x⟩ :: rest)) ∧
    Parse ("<!-- @x @x -->\n```\nb\n```\n") = [(("x"), [⟨[("x")], ("b\n")⟩])] := by
  constructor
  · intro x pending m rest
    show parseLoop (addPending (addPending pending x) x) m rest =
      parseLoop (addPending pending x) m rest
    rw [addPending_mem_eq _ _ (mem_addPending pending x)]
  · decide

theorem parse_two_labels (a b t : String) (hab : a ≠ b) :
    parseLoop [] [] [⟨itemType.itemBlockLabel, a⟩, ⟨itemType.itemBlockLabel, b⟩,
        ⟨itemType.itemCodeBlock, t⟩, ⟨itemType.itemEOF, ("")⟩] =
      [(a, [⟨[a, b], t⟩]), (b, [⟨[a, b], t⟩])] := by
  have h1 : addPending [] a = [a] := by simp [addPending]
  have h2 : addPending [a] b = [a, b] := by
    unfold addPending
    rw [if_neg]
    · rfl
    · rw [List.mem_singleton]
      exact fun h => hab h.symm
  show parseLoop (addPending (addPending [] a) b) []
      [⟨itemType.itemCodeBlock, t⟩, ⟨itemType.itemEOF, ("")⟩] = _
  rw [h1, h2]
  show parseLoop []
      (List.foldl (fun acc k => addBlock acc k ⟨[a, b], t⟩) [] [a, b])
      [⟨itemType.itemEOF, ("")⟩] = _
  have e1 : addBlock [] a ⟨[a, b], t⟩ = [(a, [⟨[a, b], t⟩])] := rfl
  have e2 : addBlock [(a, [⟨[a, b], t⟩])] b ⟨[a, b], t⟩ =
      [(a, [⟨[a, b], t⟩]), (b, [⟨[a, b], t⟩])] := by
    simp [addBlock, hab]
  rw [List.foldl_cons, List.foldl_cons, List.foldl_nil, e1, e2]
  rfl

/-- C9: a block annotated with two distinct labels a and b gives a
mapping containing both keys, and the very same ScriptBlock (same code
text, same label set, labels in annotation order) is the sole member of
both Script a and Script b. -/
theorem parse_multi_label_sharing (a b t : String) (hab : a ≠ b) :
    scriptFor (parseLoop [] [] [⟨itemType.itemBlockLabel, a⟩, ⟨itemType.itemBlockLabel, b⟩,
        ⟨itemType.itemCodeBlock, t⟩, ⟨itemType.itemEOF, ("")⟩]) a = [⟨[a, b], t⟩] ∧
    scriptFor (parseLoop [] [] [⟨itemType.itemBlockLabel, a⟩, ⟨itemType.itemBlockLabel, b⟩,
        ⟨itemType.itemCodeBlock, t⟩, ⟨itemType.itemEOF, ("")⟩]) b = [⟨[a, b], t⟩] := by
  rw [parse_two_labels a b t hab]
  constructor
  · simp [scriptFor]
  · simp [scriptFor, hab]

/-- Witness for C9 at labels a and b and code text x. -/
theorem parse_multi_label_sharing_witness :
    (("a" : String) ≠ ("b")) ∧
    (scriptFor (parseLoop [] [] [⟨itemType.itemBlockLabel, ("a")⟩, ⟨itemType.itemBlockLabel, ("b")⟩,
        ⟨itemType.itemCodeBlock, ("x")⟩, ⟨itemType.itemEOF, ("")⟩]) ("a") = [⟨[("a"), ("b")], ("x")⟩] ∧
     scriptFor (parseLoop [] [] [⟨itemType.itemBlockLabel, ("a")⟩, ⟨itemType.itemBlockLabel, ("b")⟩,
        ⟨itemType.itemCodeBlock, ("x")⟩, ⟨itemType.itemEOF, ("")⟩]) ("b") = [⟨[("a"), ("b")], ("x")⟩]) :=
  ⟨by decide, parse_multi_label_sharing ("a") ("b") ("x") (by decide)⟩

theorem runMain_error_of_mem (label : String) (fn c : String)
    (hlook : lookupScript (Parse c) label = none) :
    ∀ files : List (String × Option String), (fn, some c) ∈ files →
      ∃ n, runMain label files = Except.error n ∧ n ≠ 0 := by
  intro files
  induction files with
  | nil => intro h; cases h
  | cons p rest ih =>
    intro hmem
    obtain ⟨fn2, oc⟩ := p
    rcases List.mem_cons.mp hmem with he | hm
    · cases he
      exact ⟨3, by simp [runMain, hlook], by decide⟩
    · cases oc with
      | none => exact ⟨2, rfl, by decide⟩
      | some c2 =>
        cases hl2 : lookupScript (Parse c2) label with
        | none => exact ⟨3, by simp [runMain, hl2], by decide⟩
        | some script =>
          obtain ⟨n, hn, hn0⟩ := ih hm
          exact ⟨n, by simp [runMain, hl2, hn], hn0⟩

/-- C6: when any of the input documents has a label lookup failure for
the requested label, which per the model is the case in particular
whenever the lexer reports a LexError (Parse then returns the empty
mapping, so the label is absent), the whole invocation fails with a
non-zero exit code and the script output is empty: all documents are
parsed and checked before any emission, which happens only on a fully
successful extraction. -/
theorem main_fails_on_missing_label (label : String) (files : List (String × Option String))
    (fn c : String) (hmem : (fn, some c) ∈ files)
    (hfail : hasLexError (lexItems c) = true ∨ lookupScript (Parse c) label = none) :
    ∃ n, runMain label files = Except.error n ∧ n ≠ 0 ∧ mainOutput label files = "" := by
  have hlook : lookupScript (Parse c) label = none := by
    rcases hfail with hf | hf
    · rw [hasLexError_parse c hf]
      rfl
    · exact hf
  obtain ⟨n, hn, hn0⟩ := runMain_error_of_mem label fn c hlook files hmem
  exact ⟨n, hn, hn0, by simp [mainOutput, hn]⟩

/-- Witness for C6 at one file whose document has an unterminated fence:
the lexer errors, the label is absent, the invocation exits non-zero and
emits nothing. -/
theorem main_fails_witness :
    ((("f" : String), some exUnterminated) ∈ [((("f" : String)), some exUnterminated)] ∧
      hasLexError (lexItems exUnterminated) = true) ∧
    (∃ n, runMain ("a") [((("f" : String)), some exUnterminated)] = Except.error n ∧ n ≠ 0 ∧
      mainOutput ("a") [((("f" : String)), some exUnterminated)] = "") :=
  ⟨⟨by decide, by decide⟩,
    main_fails_on_missing_label ("a") [((("f" : String)), some exUnterminated)] ("f")
      exUnterminated (by decide) (Or.inl (by decide))⟩

theorem lookupScript_eq_scriptFor (m : List (String × List ScriptBlock)) (l : String)
    (s : List ScriptBlock) (h : lookupScript m l = some s) : s = scriptFor m l := by
  induction m with
  | nil => cases h
  | cons p rest ih =>
    obtain ⟨k, sc⟩ := p
    by_cases hk : k = l
    · rw [lookupScript] at h
      rw [if_pos hk] at h
      cases h
      rw [scriptFor, if_pos hk]
    · rw [lookupScript] at h
      rw [if_neg hk] at h
      rw [scriptFor, if_neg hk]
      exact ih h

theorem mem_scriptFor_parse (s l : String) (b : ScriptBlock)
    (hb : b ∈ scriptFor (Parse s) l) : l ∈ b.labels := by
  rw [scriptFor_parse] at hb
  exact of_decide_eq_true (List.mem_filter.mp hb).2

theorem runMain_buckets (label : String) :
    ∀ (files : List (String × Option String)) (buckets : List ScriptBucket),
    runMain label files = Except.ok buckets →
    ∀ bk ∈ buckets, ∀ b ∈ bk.script, label ∈ b.labels := by
  intro files
  induction files with
  | nil =>
    intro buckets h bk hbk b hbb
    rw [runMain] at h
    cases h
    cases hbk
  | cons p rest ih =>
    intro buckets h bk hbk b hbb
    obtain ⟨fn, oc⟩ := p
    cases oc with
    | none => cases h
    | some c =>
      rw [runMain] at h
      cases hl : lookupScript (Parse c) label with
      | none =>
        rw [hl] at h
        cases h
      | some script =>
        rw [hl] at h
        cases hr : runMain label rest with
        | error n =>
          rw [hr] at h
          cases h
        | ok bks =>
          rw [hr] at h
          cases h
          rcases List.mem_cons.mp hbk with hbk1 | hbk1
          · subst hbk1
            apply mem_scriptFor_parse c label b
            rw [← lookupScript_eq_scriptFor _ _ _ hl]
            exact hbb
          · exact ih bks hr bk hbk1 b hbb

theorem dumpBlocks_isSome (label fn : String) (n : Nat) :
    ∀ (blocks : List ScriptBlock) (i : Nat), (∀ b ∈ blocks, b.labels ≠ []) →
    (dumpBlocks label fn n i blocks).isSome = true := by
  intro blocks
  induction blocks with
  | nil => intro i _; rfl
  | cons b rest ih =>
    intro i h
    have hb : b.labels ≠ [] := h b (List.mem_cons_self b rest)
    obtain ⟨l0, hl0⟩ : ∃ l0, b.labels.head? = some l0 := by
      cases hbl : b.labels with
      | nil => exact absurd hbl hb
      | cons x xs => exact ⟨x, rfl⟩
    have hrest := ih (i + 1) (fun x hx => h x (List.mem_cons_of_mem b hx))
    obtain ⟨t, ht⟩ := Option.isSome_iff_exists.mp hrest
    have hsb : dumpBlock label fn n i b =
        some ((delimLine ("Start") i) ++ ("echo \"Block ") ++ squote ++ l0 ++ squote
          ++ (" (") ++ (toString i) ++ ("/") ++ (toString n) ++ (" in ") ++ label
          ++ (") of ") ++ fn ++ ("\"\n####\n") ++ b.codeText
          ++ (delimLine ("End") i) ++ ("\n")) := by
      rw [dumpBlock, hl0]
    rw [dumpBlocks, hsb, ht]
    rfl

/-- C10: every ScriptBlock of every bucket produced by a successful run
of the extraction loop has a non-empty label list (the requested label is
always among a stored block's labels), so the first-label access of
dumpBucket (main.go line 18) never indexes out of bounds: dumpBucket
produces an output for every such bucket. -/
theorem dump_bucket_labels_nonempty (label : String) (files : List (String × Option String))
    (buckets : List ScriptBucket) (h : runMain label files = Except.ok buckets) :
    ∀ bk ∈ buckets, (∀ b ∈ bk.script, b.labels ≠ []) ∧ (dumpBucket label bk).isSome = true := by
  intro bk hbk
  have hlab : ∀ b ∈ bk.script, label ∈ b.labels := runMain_buckets label files buckets h bk hbk
  have hne : ∀ b ∈ bk.script, b.labels ≠ [] := by
    intro b hb he
    have hl := hlab b hb
    rw [he] at hl
    cases hl
  refine ⟨hne, ?_⟩
  have hs := dumpBlocks_isSome label bk.fileName bk.script.length bk.script 1 hne
  obtain ⟨t, ht⟩ := Option.isSome_iff_exists.mp hs
  rw [dumpBucket, ht]
  rfl

/-- Witness for C10 at the worked example document requested under label
foo. -/
theorem dump_bucket_labels_nonempty_witness :
    runMain ("foo") [((("f.md" : String)), some workedExample)] =
      Except.ok [⟨("f.md"),
        [⟨[("goHome"), ("foo")], ("cd $HOME\n")⟩,
         ⟨[("echoCloseStar"), ("foo"), ("baz")], ("echo \"Proxima Centauri\"\n")⟩]⟩] ∧
    (∀ bk ∈ [(⟨("f.md"),
        [⟨[("goHome"), ("foo")], ("cd $HOME\n")⟩,
         ⟨[("echoCloseStar"), ("foo"), ("baz")], ("echo \"Proxima Centauri\"\n")⟩]⟩ : ScriptBucket)],
      (∀ b ∈ bk.script, b.labels ≠ []) ∧ (dumpBucket ("foo") bk).isSome = true) :=
  ⟨by rfl, dump_bucket_labels_nonempty ("foo") [((("f.md" : String)), some workedExample)] _ (by rfl)⟩

end Mdrip
